import Mathlib

/-
Verification of the clipity extension's dependency-orchestration and
download-execution core (src/utils.ts embedded in src/unnamed/part_001,
and the submit handler of src/src/download.tsx).

Strings are modelled as lists of characters so that the JavaScript
string operations (trim, split, slice, padStart) can be given exact
recursive definitions. JavaScript numbers are modelled as rationals;
the claims of interest only involve exactly representable values.
Filesystem state is a predicate giving, for each path, whether a file
exists there; external process invocations are modelled by their
observable text output (a list of chunks, each a list of lines) and
their outcome.
-/

/-- Whitespace recognised by the model of the JavaScript string `trim`
operation (ASCII whitespace; exotic Unicode space classes out of scope). -/
def isWSChar (c : Char) : Bool :=
  c = ' ' || c = '\t' || c = '\n' || c = '\r'

/-- Model of the JavaScript string `trim`: drop whitespace from both ends. -/
def jsTrim (s : List Char) : List Char :=
  ((s.dropWhile isWSChar).reverse.dropWhile isWSChar).reverse

/-- Model of the JavaScript single-character string `split`. Empty fields
are kept: splitting the empty string yields one empty field, and splitting
a lone separator yields two empty fields, exactly as in JavaScript. -/
def jsSplit (sep : Char) : List Char → List (List Char)
  | [] => [[]]
  | c :: cs =>
    if c = sep then [] :: jsSplit sep cs
    else
      match jsSplit sep cs with
      | [] => [[c]]
      | h :: t => (c :: h) :: t

/-- Decimal value of a digit list, most significant digit first. -/
def digitsVal (l : List Char) : Nat :=
  l.foldl (fun a c => 10 * a + (c.toNat - 48)) 0

/-- Unsigned-part parser of the model of the JavaScript `Number(string)`
conversion: digits with an optional fractional part, consuming the whole
input; anything else is NaN (`none`). -/
def jsNumberCore (l : List Char) : Option ℚ :=
  let p := l.span Char.isDigit
  match p.2 with
  | [] => if p.1 = [] then none else some (digitsVal p.1 : ℚ)
  | c :: r2 =>
    if c = '.' then
      let q := r2.span Char.isDigit
      if q.2 = [] then
        if p.1 = [] && q.1 = [] then none
        else some ((digitsVal p.1 : ℚ) + (digitsVal q.1 : ℚ) / 10 ^ q.1.length)
      else none
    else none

/-- Model of the JavaScript `Number(string)` conversion restricted to
decimal numerals: after trimming, the empty string converts to 0, and an
optionally signed decimal numeral converts to its value. Exotic numeral
forms (hexadecimal, exponent, Infinity) are outside the model's scope and
map to `none` (NaN). -/
def jsNumber (s : List Char) : Option ℚ :=
  match jsTrim s with
  | [] => some 0
  | c :: r =>
    if c = '+' then jsNumberCore r
    else if c = '-' then (jsNumberCore r).map (fun q => -q)
    else jsNumberCore (c :: r)

/-- Truncation toward zero, as performed by JavaScript integer division
semantics underlying the `%` operator. -/
def jsTrunc (q : ℚ) : ℤ :=
  if 0 ≤ q then ⌊q⌋ else -⌊-q⌋

/-- Model of the JavaScript `%` (remainder) operator on numbers:
`a % b = a - b * trunc(a / b)`. -/
def jsMod (a b : ℚ) : ℚ :=
  a - b * (jsTrunc (a / b) : ℚ)

/-- Model of `Math.round`: round half toward positive infinity. -/
def jsRound (q : ℚ) : ℤ :=
  ⌊q + 1 / 2⌋

/-- Character for a decimal digit value. -/
def digitChar (d : Nat) : Char :=
  Char.ofNat (48 + d)

/-- Decimal representation of a natural number, as produced by the
JavaScript number-to-string conversion for non-negative integers. -/
def natRepr (n : Nat) : List Char :=
  if _h : n < 10 then [digitChar n]
  else natRepr (n / 10) ++ [digitChar (n % 10)]
decreasing_by exact Nat.div_lt_self (by omega) (by omega)

/-- Model of the JavaScript `String(i)` conversion for integral numbers. -/
def intToString (i : ℤ) : List Char :=
  if i < 0 then '-' :: natRepr (-i).toNat else natRepr i.toNat

/-- Model of `padStart(2, "0")`: left-pad with zeros to length two. -/
def padStart2 (l : List Char) : List Char :=
  List.replicate (2 - l.length) '0' ++ l

/-- Embedding of `formatDuration` (src/unnamed/part_001, lines 557-564):
hours, minutes and seconds are recovered with `Math.floor` and the
JavaScript `%` remainder; minutes and seconds are zero-padded to two
digits, and the hour field is present only when positive. -/
def formatDuration (secs : ℚ) : List Char :=
  let h : ℤ := ⌊secs / 3600⌋
  let m : ℤ := ⌊jsMod secs 3600 / 60⌋
  let s : ℤ := ⌊jsMod secs 60⌋
  if 0 < h then
    intToString h ++ ':' :: padStart2 (intToString m) ++ ':' :: padStart2 (intToString s)
  else
    padStart2 (intToString m) ++ ':' :: padStart2 (intToString s)

/-- Embedding of `parseTimeToSeconds` (src/unnamed/part_001, lines
566-573): a blank string is a parse failure (`none`, modelling the null
return); otherwise the trimmed string is split on `:`, each component is
converted with `Number`, any NaN component is a parse failure, three
components combine as h:m:s, two as m:s, and any other component count
yields the first component alone. The `Option` result models the
null-or-number return type; the function is total, modelling that the
original never throws. -/
def parseTimeToSeconds (str : List Char) : Option ℚ :=
  if jsTrim str = [] then none
  else
    let parts := (jsSplit ':' (jsTrim str)).map jsNumber
    if parts.any (fun p => p.isNone) then none
    else
      match parts with
      | [a, b, c] => some (a.getD 0 * 3600 + b.getD 0 * 60 + c.getD 0)
      | [a, b] => some (a.getD 0 * 60 + b.getD 0)
      | l => some ((l.headD (some 0)).getD 0)

/-- Embedding of `secondsToTimestamp` (src/unnamed/part_001, lines
575-577). -/
def secondsToTimestamp (secs : ℚ) : List Char :=
  formatDuration (max 0 secs)

/-- Fixed priority-ordered directory list `BREW_PATHS` (src/unnamed/
part_001, line 351). -/
def BREW_PATHS : List (List Char) :=
  [("/opt/homebrew/bin").toList, ("/usr/local/bin").toList, ("/usr/bin").toList]

/-- Model of `path.join(dir, name)` for plain file names: concatenation
with a separator (dot-segment normalisation out of scope). -/
def joinPath (dir name : List Char) : List Char :=
  dir ++ '/' :: name

/-- Loop body of `getBinPath`: walk the directory list in order and
return the first joined path at which a file exists. -/
def getBinPathAux (fs : List Char → Bool) (name : List Char) :
    List (List Char) → Option (List Char)
  | [] => none
  | d :: ds =>
    if fs (joinPath d name) then some (joinPath d name)
    else getBinPathAux fs name ds

/-- Embedding of `getBinPath` (src/unnamed/part_001, lines 353-359):
checks the three canonical directories in fixed order against the
filesystem-existence predicate `fs` (modelling `existsSync`) and returns
the first joined path found, or `none`. -/
def getBinPath (fs : List Char → Bool) (name : List Char) : Option (List Char) :=
  getBinPathAux fs name BREW_PATHS

/-- Embedding of `getBrewPath` (src/unnamed/part_001, lines 361-363). -/
def getBrewPath (fs : List Char → Bool) : Option (List Char) :=
  getBinPath fs (("brew").toList)

/-- Embedding of the `DepsStatus` record (src/unnamed/part_001, lines
365-372). -/
structure DepsStatus where
  brew : Bool
  ytdlp : Bool
  ffmpeg : Bool
  brewPath : Option (List Char)
  ytdlpPath : Option (List Char)
  ffmpegPath : Option (List Char)
deriving DecidableEq, Repr

/-- Embedding of `checkDeps` (src/unnamed/part_001, lines 374-383): three
independent probes assembled into a snapshot, re-probing `fs` each time. -/
def checkDeps (fs : List Char → Bool) : DepsStatus :=
  { brew := (getBrewPath fs).isSome
    ytdlp := (getBinPath fs (("yt-dlp").toList)).isSome
    ffmpeg := (getBinPath fs (("ffmpeg").toList)).isSome
    brewPath := getBrewPath fs
    ytdlpPath := getBinPath fs (("yt-dlp").toList)
    ffmpegPath := getBinPath fs (("ffmpeg").toList) }

/-- Chunk handler shared by the installer process invocations: split a
chunk on newlines, discard empty lines (the `filter(Boolean)`), then trim
and truncate each line to 100 characters. -/
def procChunkLines (chunk : List Char) : List (List Char) :=
  ((jsSplit '\n' chunk).filter (fun l => !l.isEmpty)).map
    (fun l => (jsTrim l).take 100)

/-- Embedding of the data callback of `brewInstall` (src/unnamed/
part_001, lines 404-410): the lines forwarded to `onLine` for one output
chunk. -/
def brewInstallLines (chunk : List Char) : List (List Char) :=
  procChunkLines chunk

/-- Embedding of the data callback of `installHomebrew` (src/unnamed/
part_001, lines 430-436): the lines forwarded to `onLine` for one output
chunk. -/
def installHomebrewLines (chunk : List Char) : List (List Char) :=
  procChunkLines chunk

/-- Output format requested in a download (src/unnamed/part_001,
line 479). -/
inductive MediaFormat where
  | video
  | audio
deriving DecidableEq, Repr

/-- Embedding of the `DownloadOptions` record (src/unnamed/part_001,
lines 475-482), minus the `onProgress` callback, which is modelled by the
event lists below. `none` models an absent (undefined) field. -/
structure DownloadOptions where
  url : List Char
  startTime : Option (List Char)
  endTime : Option (List Char)
  format : MediaFormat
  quality : Option (List Char)
deriving DecidableEq, Repr

/-- Truthiness of an optional string under JavaScript coercion: absent
and empty are falsy. -/
def jsTruthyStr (o : Option (List Char)) : Bool :=
  match o with
  | none => false
  | some s => !s.isEmpty

/-- Model of the JavaScript `o || d` default idiom on optional strings. -/
def jsOrD (o : Option (List Char)) (d : List Char) : List Char :=
  if jsTruthyStr o then o.getD [] else d

/-- Condition guarding the trim branch of `downloadVideo` (src/unnamed/
part_001, lines 517-520): a truthy start time differing from the literal
zero default `00:00`, or a truthy end time. -/
def sectionCond (opts : DownloadOptions) : Bool :=
  (jsTruthyStr opts.startTime && (opts.startTime.getD [] != ("00:00").toList))
    || jsTruthyStr opts.endTime

/-- Section-extraction arguments added by the trim branch (src/unnamed/
part_001, lines 521-523). -/
def sectionArgsOf (opts : DownloadOptions) : List (List Char) :=
  [("--download-sections").toList,
   '*' :: jsOrD opts.startTime (("0").toList) ++ '-' :: jsOrD opts.endTime (("inf").toList),
   ("--force-keyframes-at-cuts").toList]

/-- Base argument list of `downloadVideo` (src/unnamed/part_001, lines
493-500), parameterised by the resolved ffmpeg path and output directory. -/
def baseArgs (ffmpegPath outDir : List Char) : List (List Char) :=
  [("--no-playlist").toList,
   ("--newline").toList,
   ("-o").toList,
   joinPath outDir (("%(title)s.%(ext)s").toList),
   ("--ffmpeg-location").toList,
   joinPath ffmpegPath (("..").toList)]

/-- Format-branch arguments of `downloadVideo` (src/unnamed/part_001,
lines 502-515). -/
def fmtArgs (opts : DownloadOptions) : List (List Char) :=
  match opts.format with
  | .audio =>
    [("-x").toList, ("--audio-format").toList, ("mp3").toList,
     ("--audio-quality").toList, ("0").toList]
  | .video =>
    let hq : List Char :=
      if jsTruthyStr opts.quality && (opts.quality.getD [] != ("best").toList) then
        ("[height<=").toList ++ opts.quality.getD [] ++ ("]").toList
      else []
    [("-f").toList,
     ("bestvideo").toList ++ hq ++ ("[ext=mp4]+bestaudio[ext=m4a]/best").toList
       ++ hq ++ ("[ext=mp4]/best").toList,
     ("--merge-output-format").toList, ("mp4").toList]

/-- Embedding of the argument construction of `downloadVideo`
(src/unnamed/part_001, lines 493-526): base arguments, then the format
branch, then the trim branch when its condition holds, then the URL. -/
def downloadVideoArgs (opts : DownloadOptions) (ffmpegPath outDir : List Char) :
    List (List Char) :=
  baseArgs ffmpegPath outDir ++ fmtArgs opts
    ++ (if sectionCond opts then sectionArgsOf opts else []) ++ [opts.url]

/-- Matcher for the percentage regular expression of `downloadVideo`
(line 541) at the start of the input: a nonempty digit run, an optional
dot followed by a digit run, then a percent sign; returns the parsed
value of the capture. -/
def pctAttempt (l : List Char) : Option ℚ :=
  let p := l.span Char.isDigit
  if p.1 = [] then none
  else
    match p.2 with
    | [] => none
    | c :: r2 =>
      if c = '%' then some (digitsVal p.1 : ℚ)
      else if c = '.' then
        let q := r2.span Char.isDigit
        match q.2 with
        | [] => none
        | c2 :: _ =>
          if c2 = '%' then
            some ((digitsVal p.1 : ℚ) + (digitsVal q.1 : ℚ) / 10 ^ q.1.length)
          else none
      else none

/-- Leftmost match of the percentage pattern in a line, scanning start
positions left to right as the regular-expression engine does. -/
def firstPct : List Char → Option ℚ
  | [] => none
  | c :: cs =>
    match pctAttempt (c :: cs) with
    | some q => some q
    | none => firstPct cs

/-- Progress value forwarded for one line by `downloadVideo` (line 542):
the first percentage match, rounded with `Math.round`; `none` when the
line contains no percentage and `onProgress` is not called. -/
def progressOfLine (l : List Char) : Option ℤ :=
  (firstPct l).map jsRound

/-- Destination-announcement marker of the first path regular expression
of `downloadVideo` (line 545). -/
def DEST_MARKER : List Char :=
  ("[download] Destination: ").toList

/-- Merge-announcement marker of the second path regular expression of
`downloadVideo` (line 546). -/
def MERGE_MARKER : List Char :=
  ("[Merger] Merging formats into \"").toList

/-- Suffix of the input after the first occurrence of a marker, or
`none` when the marker does not occur. -/
def firstOccTail (m : List Char) : List Char → Option (List Char)
  | [] => if m.isEmpty then some [] else none
  | c :: cs =>
    if m.isPrefixOf (c :: cs) then some (List.drop m.length (c :: cs))
    else firstOccTail m cs

/-- Capture of the destination regular expression
`\[download\] Destination: (.+)` on a line: the nonempty remainder after
the first occurrence of the marker (greedy to end of line). -/
def destMatchCapture (l : List Char) : Option (List Char) :=
  match firstOccTail DEST_MARKER l with
  | some r => if r.isEmpty then none else some r
  | none => none

/-- Capture of the merger regular expression
`\[Merger\] Merging formats into "(.+)"` on a line: after the first
occurrence of the marker, the greedy capture extends to the last double
quote of the line and must be nonempty. -/
def mergeMatchCapture (l : List Char) : Option (List Char) :=
  match firstOccTail MERGE_MARKER l with
  | some r =>
    let ps := jsSplit '"' r
    if ps.length ≥ 2 then
      let cap := List.intercalate ['"'] ps.dropLast
      if cap.isEmpty then none else some cap
    else none
  | none => none

/-- Path capture of one line of `downloadVideo` output (lines 544-547):
the destination pattern is tried first, the merger pattern second. -/
def lineFileCapture (l : List Char) : Option (List Char) :=
  match destMatchCapture l with
  | some c => some c
  | none => mergeMatchCapture l

/-- Fold of `downloadVideo`'s `lastFile` variable (lines 536-549) over
the observed output lines: each matching line overwrites the previous
capture with its trimmed capture. -/
def downloadLastFile (lines : List (List Char)) : List Char :=
  lines.foldl
    (fun acc l =>
      match lineFileCapture l with
      | some c => jsTrim c
      | none => acc)
    []

/-- Returned path of `downloadVideo` (line 552): the last capture, or the
output directory when no line ever matched (`lastFile || outDir`). -/
def downloadResultPath (outDir : List Char) (lines : List (List Char)) : List Char :=
  if (downloadLastFile lines).isEmpty then outDir else downloadLastFile lines

/-- Nonempty lines of one output chunk as observed by `downloadVideo`
(line 539): split on newlines, empty lines discarded, no truncation. -/
def downloadChunkObservedLines (chunk : List Char) : List (List Char) :=
  (jsSplit '\n' chunk).filter (fun l => !l.isEmpty)

/-- Progress events emitted by `downloadVideo` for one output chunk
(lines 538-542): for each observed line with a percentage match, the
rounded value together with the raw line passed to `onProgress`. -/
def downloadChunkEvents (chunk : List Char) : List (ℤ × List Char) :=
  (downloadChunkObservedLines chunk).filterMap
    (fun l => (progressOfLine l).map (fun p => (p, l)))

/-- Step state of the installer state machine (src/unnamed/part_001,
lines 13-16). -/
inductive StepState where
  | idle
  | running
  | done
  | error
  | skipped
deriving DecidableEq, Repr

/-- Step record: state with its display log line. -/
structure StepStatus where
  state : StepState
  log : List Char
deriving DecidableEq, Repr

/-- Initial step record (src/unnamed/part_001, line 24). -/
def IDLE : StepStatus :=
  { state := .idle, log := [] }

/-- Steps record of the setup view (src/unnamed/part_001, lines 18-22). -/
structure Steps where
  brew : StepStatus
  ytdlp : StepStatus
  ffmpeg : StepStatus
deriving DecidableEq, Repr

/-- Observable outcome of one `installAll` run: the final step records,
the installs actually attempted in order, and the dependency snapshot
published on full success (`none` when the sequence aborted early). -/
structure InstallRun where
  steps : Steps
  attempted : List (List Char)
  published : Option DepsStatus
deriving DecidableEq, Repr

/-- Embedding of `installAll` (src/unnamed/part_001, lines 64-148). The
filesystem `fs` is probed freshly at the start and, on full success, once
more at the end. Each potential install is abstracted by its outcome:
`Except.error e` models a thrown error with message text `e`, and
`Except.ok log` models success with the step's final log line. The
sequence aborts (returning immediately, downstream steps untouched) on
the first failing step, exactly as the early returns in the source do. -/
def installAll (fs : List Char → Bool)
    (brewRes ytdlpRes ffmpegRes : Except (List Char) (List Char)) : InstallRun :=
  let freshDeps := checkDeps fs
  let brewResult : Except StepStatus StepStatus :=
    if freshDeps.brew then .ok { state := .skipped, log := [] }
    else
      match brewRes with
      | .ok log => .ok { state := .done, log := log }
      | .error e => .error { state := .error, log := e }
  match brewResult with
  | .error st =>
    { steps := { brew := st, ytdlp := IDLE, ffmpeg := IDLE }
      attempted := [("homebrew").toList]
      published := none }
  | .ok brewSt =>
    let brewAttempt : List (List Char) :=
      if freshDeps.brew then [] else [("homebrew").toList]
    let ytdlpResult : Except StepStatus StepStatus :=
      if freshDeps.ytdlp then .ok { state := .skipped, log := [] }
      else
        match ytdlpRes with
        | .ok log => .ok { state := .done, log := log }
        | .error e => .error { state := .error, log := e }
    match ytdlpResult with
    | .error st =>
      { steps := { brew := brewSt, ytdlp := st, ffmpeg := IDLE }
        attempted := brewAttempt ++ [("yt-dlp").toList]
        published := none }
    | .ok ytdlpSt =>
      let ytdlpAttempt : List (List Char) :=
        if freshDeps.ytdlp then [] else [("yt-dlp").toList]
      let ffmpegResult : Except StepStatus StepStatus :=
        if freshDeps.ffmpeg then .ok { state := .skipped, log := [] }
        else
          match ffmpegRes with
          | .ok log => .ok { state := .done, log := log }
          | .error e => .error { state := .error, log := e }
      match ffmpegResult with
      | .error st =>
        { steps := { brew := brewSt, ytdlp := ytdlpSt, ffmpeg := st }
          attempted := brewAttempt ++ ytdlpAttempt ++ [("ffmpeg").toList]
          published := none }
      | .ok ffmpegSt =>
        let ffmpegAttempt : List (List Char) :=
          if freshDeps.ffmpeg then [] else [("ffmpeg").toList]
        { steps := { brew := brewSt, ytdlp := ytdlpSt, ffmpeg := ffmpegSt }
          attempted := brewAttempt ++ ytdlpAttempt ++ ffmpegAttempt
          published := some (checkDeps fs) }

/-- Form values received by the submit handler of the trim form
(src/src/download.tsx, lines 36-40). -/
structure SubmitValues where
  startTime : List Char
  endTime : List Char
  format : MediaFormat
deriving DecidableEq, Repr

/-- Outcome of the submit handler: either the request is rejected by
validation before any external process is spawned, or a download is
started with the constructed request. -/
inductive SubmitOutcome where
  | rejected
  | started (req : DownloadOptions)
deriving DecidableEq, Repr

/-- Embedding of the validation and request construction of
`handleSubmit` (src/src/download.tsx, lines 36-73): parse both trim
fields; when both parse and start is not strictly earlier than end,
reject before `downloadVideo` is invoked; otherwise invoke
`downloadVideo` with empty fields mapped to absent. -/
def handleSubmit (url : List Char) (v : SubmitValues) : SubmitOutcome :=
  let startSecs := parseTimeToSeconds v.startTime
  let endSecs := parseTimeToSeconds v.endTime
  let req : DownloadOptions :=
    { url := url
      startTime := if v.startTime.isEmpty then none else some v.startTime
      endTime := if v.endTime.isEmpty then none else some v.endTime
      format := v.format
      quality := none }
  match startSecs, endSecs with
  | some s, some e => if s ≥ e then .rejected else .started req
  | _, _ => .started req

/- ── Helper lemmas about the string primitives ─────────────────────── -/

/-- Lists whose elements all fail the predicate are unchanged by
`dropWhile`. -/
theorem dropWhile_eq_self_of (p : Char → Bool) (l : List Char)
    (h : ∀ c ∈ l, p c = false) : l.dropWhile p = l := by
  cases l with
  | nil => rfl
  | cons a as =>
    rw [List.dropWhile_cons]
    simp [h a (by simp)]

/-- Trimming is the identity on whitespace-free strings. -/
theorem jsTrim_no_ws (l : List Char) (h : ∀ c ∈ l, isWSChar c = false) :
    jsTrim l = l := by
  unfold jsTrim
  rw [dropWhile_eq_self_of _ l h,
    dropWhile_eq_self_of _ l.reverse (fun c hc => h c (List.mem_reverse.mp hc)),
    List.reverse_reverse]

/-- Lists whose elements all satisfy the predicate are unchanged by
`takeWhile`. -/
theorem takeWhile_all (p : Char → Bool) (l : List Char)
    (h : ∀ c ∈ l, p c = true) : l.takeWhile p = l := by
  induction l with
  | nil => rfl
  | cons a as ih =>
    rw [List.takeWhile_cons]
    simp [h a (by simp), ih (fun c hc => h c (by simp [hc]))]

/-- Lists whose elements all satisfy the predicate are emptied by
`dropWhile`. -/
theorem dropWhile_all (p : Char → Bool) (l : List Char)
    (h : ∀ c ∈ l, p c = true) : l.dropWhile p = [] := by
  induction l with
  | nil => rfl
  | cons a as ih =>
    rw [List.dropWhile_cons]
    simp [h a (by simp), ih (fun c hc => h c (by simp [hc]))]

/-- Span of a list whose elements all satisfy the predicate. -/
theorem span_all (p : Char → Bool) (l : List Char)
    (h : ∀ c ∈ l, p c = true) : l.span p = (l, []) := by
  rw [List.span_eq_take_drop, takeWhile_all p l h, dropWhile_all p l h]

/-- Span of a satisfying run followed by a failing element. -/
theorem span_append_not (p : Char → Bool) (a : List Char) (x : Char)
    (r : List Char) (ha : ∀ c ∈ a, p c = true) (hx : p x = false) :
    (a ++ x :: r).span p = (a, x :: r) := by
  induction a with
  | nil =>
    rw [List.span_eq_take_drop, List.nil_append, List.takeWhile_cons,
      List.dropWhile_cons]
    simp [hx]
  | cons b bs ih =>
    have hb : p b = true := ha b (by simp)
    have ih2 := ih (fun c hc => ha c (by simp [hc]))
    rw [List.span_eq_take_drop] at ih2 ⊢
    rw [List.cons_append, List.takeWhile_cons, List.dropWhile_cons]
    simp only [hb, if_true, Prod.mk.injEq] at ih2 ⊢
    simp [ih2.1, ih2.2]

/-- Digits are not whitespace. -/
theorem isDigit_not_ws (c : Char) (h : c.isDigit = true) : isWSChar c = false := by
  by_contra hw
  simp only [Bool.not_eq_false, isWSChar, Bool.or_eq_true, decide_eq_true_eq] at hw
  rcases hw with ((rfl | rfl) | rfl) | rfl <;> exact absurd h (by decide)

/-- Splitting a list that does not contain the separator. -/
theorem jsSplit_of_not_mem (sep : Char) (l : List Char) (h : sep ∉ l) :
    jsSplit sep l = [l] := by
  induction l with
  | nil => rfl
  | cons a as ih =>
    have ha : ¬a = sep := fun e => h (by simp [e])
    have ih2 := ih (fun e => h (by simp [e]))
    unfold jsSplit
    rw [if_neg ha, ih2]

/-- Splitting a separator-free run followed by a separator. -/
theorem jsSplit_append (sep : Char) (a b : List Char) (h : sep ∉ a) :
    jsSplit sep (a ++ sep :: b) = a :: jsSplit sep b := by
  induction a with
  | nil =>
    rw [List.nil_append, jsSplit, if_pos rfl]
  | cons x xs ih =>
    have hx : ¬x = sep := fun e => h (by simp [e])
    have ih2 := ih (fun e => h (by simp [e]))
    rw [List.cons_append, jsSplit, if_neg hx, ih2]

/-- Digit characters are digits. -/
theorem digitChar_isDigit (d : Nat) (h : d < 10) : (digitChar d).isDigit = true := by
  interval_cases d <;> decide

/-- Code point of a digit character. -/
theorem digitChar_toNat (d : Nat) (h : d < 10) : (digitChar d).toNat = 48 + d := by
  interval_cases d <;> decide

/-- Decimal representations are never empty. -/
theorem natRepr_ne_nil (n : Nat) : natRepr n ≠ [] := by
  rw [natRepr]
  split
  · simp
  · simp

/-- Decimal representations consist of digits. -/
theorem natRepr_digits (n : Nat) : ∀ c ∈ natRepr n, c.isDigit = true := by
  induction n using Nat.strong_induction_on with
  | _ n ih =>
    rw [natRepr]
    split
    · intro c hc
      rw [List.mem_singleton] at hc
      subst hc
      exact digitChar_isDigit n (by omega)
    · intro c hc
      rw [List.mem_append] at hc
      rcases hc with hc | hc
      · exact ih (n / 10) (Nat.div_lt_self (by omega) (by omega)) c hc
      · rw [List.mem_singleton] at hc
        subst hc
        exact digitChar_isDigit (n % 10) (Nat.mod_lt n (by omega))

/-- Appending one digit multiplies the value by ten and adds the digit. -/
theorem digitsVal_append_digit (l : List Char) (c : Char) :
    digitsVal (l ++ [c]) = 10 * digitsVal l + (c.toNat - 48) := by
  simp [digitsVal, List.foldl_append]

/-- Decimal representation round-trips through the digit value. -/
theorem digitsVal_natRepr (n : Nat) : digitsVal (natRepr n) = n := by
  induction n using Nat.strong_induction_on with
  | _ n ih =>
    rw [natRepr]
    split
    · rename_i h
      simp [digitsVal, digitChar_toNat n h]
    · rename_i h
      rw [digitsVal_append_digit, ih (n / 10) (Nat.div_lt_self (by omega) (by omega)),
        digitChar_toNat (n % 10) (Nat.mod_lt n (by omega))]
      omega

/-- Zero padding preserves digit-only content. -/
theorem padStart2_digits (l : List Char) (h : ∀ c ∈ l, c.isDigit = true) :
    ∀ c ∈ padStart2 l, c.isDigit = true := by
  intro c hc
  rw [padStart2, List.mem_append] at hc
  rcases hc with hc | hc
  · rw [List.eq_of_mem_replicate hc]
    decide
  · exact h c hc

/-- Zero padding never yields the empty string. -/
theorem padStart2_ne_nil (l : List Char) : padStart2 l ≠ [] := by
  rw [padStart2]
  intro h
  rcases List.append_eq_nil.mp h with ⟨h1, h2⟩
  have := congrArg List.length h1
  simp [List.length_replicate] at this
  subst h2
  simp at this

/-- Zero padding does not change the digit value. -/
theorem digitsVal_padStart2 (l : List Char) :
    digitsVal (padStart2 l) = digitsVal l := by
  rw [padStart2]
  have hz : ∀ k, (List.replicate k '0').foldl (fun a c => 10 * a + (c.toNat - 48)) 0 = 0 := by
    intro k
    induction k with
    | zero => rfl
    | succ k ihk => simpa [List.replicate_succ] using ihk
  simp [digitsVal, List.foldl_append, hz]

/-- Number conversion of a nonempty digit string yields its decimal
value. -/
theorem jsNumber_digits (l : List Char) (h : ∀ c ∈ l, c.isDigit = true)
    (hne : l ≠ []) : jsNumber l = some ((digitsVal l : ℕ) : ℚ) := by
  have ht : jsTrim l = l :=
    jsTrim_no_ws l (fun c hc => isDigit_not_ws c (h c hc))
  unfold jsNumber
  rw [ht]
  cases l with
  | nil => exact absurd rfl hne
  | cons a as =>
    have hd : a.isDigit = true := h a (by simp)
    have hp : ¬a = '+' := by rintro rfl; exact absurd hd (by decide)
    have hm : ¬a = '-' := by rintro rfl; exact absurd hd (by decide)
    simp only [hp, hm, if_false]
    unfold jsNumberCore
    rw [span_all Char.isDigit (a :: as) h]
    simp

/-- Floor of a quotient of natural-number casts is natural division. -/
theorem floor_natCast_div (a b : ℕ) : ⌊(a : ℚ) / (b : ℚ)⌋ = ((a / b : ℕ) : ℤ) := by
  have h0 : (0 : ℚ) ≤ (a : ℚ) / (b : ℚ) := by positivity
  rw [← Int.natCast_floor_eq_floor h0]
  have := Nat.floor_div_eq_div (α := ℚ) a b
  exact_mod_cast congrArg (Nat.cast : ℕ → ℤ) this

/-- Truncation agrees with natural division on casts. -/
theorem jsTrunc_natCast_div (a b : ℕ) :
    jsTrunc ((a : ℚ) / (b : ℚ)) = ((a / b : ℕ) : ℤ) := by
  rw [jsTrunc, if_pos (by positivity)]
  exact floor_natCast_div a b

/-- The JavaScript remainder agrees with the natural remainder on casts. -/
theorem jsMod_natCast (a b : ℕ) : jsMod (a : ℚ) (b : ℚ) = ((a % b : ℕ) : ℚ) := by
  rw [jsMod, jsTrunc_natCast_div, Int.cast_natCast]
  have h2 : ((b : ℚ)) * ((a / b : ℕ) : ℚ) + ((a % b : ℕ) : ℚ) = (a : ℚ) := by
    exact_mod_cast Nat.div_add_mod a b
  linarith

/-- Integer-to-string conversion on a natural-number cast. -/
theorem intToString_natCast (k : ℕ) : intToString (k : ℤ) = natRepr k := by
  rw [intToString, if_neg (by omega)]
  simp

/-- Characterisation of `formatDuration` at natural-number inputs in
terms of natural division and remainder. -/
theorem formatDuration_natCast (n : ℕ) :
    formatDuration (n : ℚ) =
      if 0 < n / 3600 then
        natRepr (n / 3600) ++ ':' :: padStart2 (natRepr ((n % 3600) / 60))
          ++ ':' :: padStart2 (natRepr (n % 60))
      else
        padStart2 (natRepr ((n % 3600) / 60)) ++ ':' :: padStart2 (natRepr (n % 60)) := by
  have c3600 : ((3600 : ℚ)) = ((3600 : ℕ) : ℚ) := by norm_cast
  have c60 : ((60 : ℚ)) = ((60 : ℕ) : ℚ) := by norm_cast
  unfold formatDuration
  dsimp only
  rw [c3600, c60, floor_natCast_div, jsMod_natCast, jsMod_natCast, floor_natCast_div,
    Int.floor_natCast, intToString_natCast, intToString_natCast, intToString_natCast]
  have hcond : (0 < ((n / 3600 : ℕ) : ℤ)) ↔ 0 < n / 3600 := by exact_mod_cast Iff.rfl
  by_cases h : 0 < n / 3600
  · rw [if_pos (hcond.mpr h), if_pos h]
  · rw [if_neg (fun hh => h (hcond.mp hh)), if_neg h]

/-- Digits are not the colon separator. -/
theorem isDigit_ne_colon (c : Char) (h : c.isDigit = true) : c ≠ ':' := by
  rintro rfl
  exact absurd h (by decide)

/-- Parsing three colon-separated nonempty digit fields yields the
h:m:s combination of their values. -/
theorem parse_three_digit_fields (A B C : List Char)
    (hA : ∀ c ∈ A, c.isDigit = true) (hB : ∀ c ∈ B, c.isDigit = true)
    (hC : ∀ c ∈ C, c.isDigit = true)
    (hAne : A ≠ []) (hBne : B ≠ []) (hCne : C ≠ []) :
    parseTimeToSeconds (A ++ ':' :: (B ++ ':' :: C)) =
      some ((digitsVal A : ℚ) * 3600 + (digitsVal B : ℚ) * 60 + (digitsVal C : ℚ)) := by
  have hnws : ∀ c ∈ A ++ ':' :: (B ++ ':' :: C), isWSChar c = false := by
    intro c hc
    simp only [List.mem_append, List.mem_cons] at hc
    rcases hc with hc | rfl | hc | rfl | hc
    · exact isDigit_not_ws c (hA c hc)
    · decide
    · exact isDigit_not_ws c (hB c hc)
    · decide
    · exact isDigit_not_ws c (hC c hc)
  have ht : jsTrim (A ++ ':' :: (B ++ ':' :: C)) = A ++ ':' :: (B ++ ':' :: C) :=
    jsTrim_no_ws _ hnws
  have hne : A ++ ':' :: (B ++ ':' :: C) ≠ [] := by
    cases A <;> simp
  have hsplit : jsSplit ':' (A ++ ':' :: (B ++ ':' :: C)) = [A, B, C] := by
    rw [jsSplit_append ':' A _ (fun hc => absurd rfl (isDigit_ne_colon ':' (hA ':' hc))),
      jsSplit_append ':' B _ (fun hc => absurd rfl (isDigit_ne_colon ':' (hB ':' hc))),
      jsSplit_of_not_mem ':' C (fun hc => absurd rfl (isDigit_ne_colon ':' (hC ':' hc)))]
  unfold parseTimeToSeconds
  rw [ht, if_neg hne, hsplit]
  simp [jsNumber_digits A hA hAne, jsNumber_digits B hB hBne, jsNumber_digits C hC hCne]

/-- Parsing two colon-separated nonempty digit fields yields the
m:s combination of their values. -/
theorem parse_two_digit_fields (B C : List Char)
    (hB : ∀ c ∈ B, c.isDigit = true) (hC : ∀ c ∈ C, c.isDigit = true)
    (hBne : B ≠ []) (hCne : C ≠ []) :
    parseTimeToSeconds (B ++ ':' :: C) =
      some ((digitsVal B : ℚ) * 60 + (digitsVal C : ℚ)) := by
  have hnws : ∀ c ∈ B ++ ':' :: C, isWSChar c = false := by
    intro c hc
    simp only [List.mem_append, List.mem_cons] at hc
    rcases hc with hc | rfl | hc
    · exact isDigit_not_ws c (hB c hc)
    · decide
    · exact isDigit_not_ws c (hC c hc)
  have ht : jsTrim (B ++ ':' :: C) = B ++ ':' :: C := jsTrim_no_ws _ hnws
  have hne : B ++ ':' :: C ≠ [] := by
    cases B <;> simp
  have hsplit : jsSplit ':' (B ++ ':' :: C) = [B, C] := by
    rw [jsSplit_append ':' B _ (fun hc => absurd rfl (isDigit_ne_colon ':' (hB ':' hc))),
      jsSplit_of_not_mem ':' C (fun hc => absurd rfl (isDigit_ne_colon ':' (hC ':' hc)))]
  unfold parseTimeToSeconds
  rw [ht, if_neg hne, hsplit]
  simp [jsNumber_digits B hB hBne, jsNumber_digits C hC hCne]

/-- C10: for every non-negative integer number of seconds, formatting
with `formatDuration` and parsing back with `parseTimeToSeconds` returns
the original value: the produced timestamp is h:mm:ss when the duration
reaches an hour and mm:ss otherwise, and parsing inverts it exactly. -/
theorem parseTimeToSeconds_formatDuration_roundtrip (n : ℕ) :
    parseTimeToSeconds (formatDuration (n : ℚ)) = some (n : ℚ) := by
  rw [formatDuration_natCast]
  by_cases h : 0 < n / 3600
  · rw [if_pos h, List.append_assoc, List.cons_append]
    rw [parse_three_digit_fields _ _ _ (natRepr_digits _)
      (padStart2_digits _ (natRepr_digits _)) (padStart2_digits _ (natRepr_digits _))
      (natRepr_ne_nil _) (padStart2_ne_nil _) (padStart2_ne_nil _)]
    rw [digitsVal_natRepr, digitsVal_padStart2, digitsVal_padStart2,
      digitsVal_natRepr, digitsVal_natRepr]
    congr 1
    have harith : (n / 3600) * 3600 + ((n % 3600) / 60) * 60 + (n % 60) = n := by
      omega
    exact_mod_cast harith
  · rw [if_neg h]
    rw [parse_two_digit_fields _ _
      (padStart2_digits _ (natRepr_digits _)) (padStart2_digits _ (natRepr_digits _))
      (padStart2_ne_nil _) (padStart2_ne_nil _)]
    rw [digitsVal_padStart2, digitsVal_padStart2, digitsVal_natRepr, digitsVal_natRepr]
    congr 1
    have harith : ((n % 3600) / 60) * 60 + (n % 60) = n := by omega
    exact_mod_cast harith

section

attribute [local semireducible] Rat.mul Rat.add Rat.sub Rat.inv Rat.ofScientific

/-- C1: parseTimeToSeconds splits its input on colons and interprets the
rightmost component as seconds, the next as minutes, the next as hours:
01:02:03 parses to 3723, 02:03 to 123, 45 to 45; a blank string and any
string with a NaN component yield `none` (the embedding is a total
function, so no input throws). -/
theorem parseTimeToSeconds_spec :
    parseTimeToSeconds (("01:02:03").toList) = some 3723 ∧
    parseTimeToSeconds (("02:03").toList) = some 123 ∧
    parseTimeToSeconds (("45").toList) = some 45 ∧
    (∀ s, jsTrim s = [] → parseTimeToSeconds s = none) ∧
    (∀ s, (∃ c ∈ jsSplit ':' (jsTrim s), jsNumber c = none) →
      parseTimeToSeconds s = none) ∧
    (∀ s a b c x y z, jsSplit ':' (jsTrim s) = [a, b, c] →
      jsNumber a = some x → jsNumber b = some y → jsNumber c = some z →
      parseTimeToSeconds s = some (x * 3600 + y * 60 + z)) ∧
    (∀ s a b x y, jsSplit ':' (jsTrim s) = [a, b] →
      jsNumber a = some x → jsNumber b = some y →
      parseTimeToSeconds s = some (x * 60 + y)) ∧
    (∀ s a x, jsTrim s ≠ [] → jsSplit ':' (jsTrim s) = [a] → jsNumber a = some x →
      parseTimeToSeconds s = some x) := by
  refine ⟨by decide, by decide, by decide, ?_, ?_, ?_, ?_, ?_⟩
  · intro s hs
    unfold parseTimeToSeconds
    rw [if_pos hs]
  · rintro s ⟨c, hc, hnone⟩
    by_cases ht : jsTrim s = []
    · unfold parseTimeToSeconds
      rw [if_pos ht]
    · have hany : ((jsSplit ':' (jsTrim s)).map jsNumber).any (fun p => p.isNone) = true := by
        simp only [List.any_eq_true]
        exact ⟨jsNumber c, List.mem_map_of_mem _ hc, by simp [hnone]⟩
      unfold parseTimeToSeconds
      rw [if_neg ht]
      dsimp only
      rw [if_pos hany]
  · intro s a b c x y z hsplit ha hb hc
    have ht : jsTrim s ≠ [] := by
      intro h
      rw [h] at hsplit
      simp [jsSplit] at hsplit
    unfold parseTimeToSeconds
    rw [if_neg ht]
    dsimp only
    rw [hsplit]
    simp [ha, hb, hc]
  · intro s a b x y hsplit ha hb
    have ht : jsTrim s ≠ [] := by
      intro h
      rw [h] at hsplit
      simp [jsSplit] at hsplit
    unfold parseTimeToSeconds
    rw [if_neg ht]
    dsimp only
    rw [hsplit]
    simp [ha, hb]
  · intro s a x ht hsplit ha
    unfold parseTimeToSeconds
    rw [if_neg ht]
    dsimp only
    rw [hsplit]
    simp [ha]

/-- Witness for C1: a string with a non-numeric component parses to
`none`, by the non-numeric clause of the theorem at a concrete input. -/
theorem parseTimeToSeconds_spec_witness :
    parseTimeToSeconds (("aa:05").toList) = none :=
  parseTimeToSeconds_spec.2.2.2.2.1 (("aa:05").toList)
    ⟨("aa").toList, by decide, by decide⟩

/-- C2: the submit handler rejects the request before `downloadVideo` is
invoked exactly when both trim fields parse and the start is greater than
or equal to the end; when the start parses strictly below the end, or
either field fails to parse, the download is started instead. -/
theorem handleSubmit_validation (url : List Char) (v : SubmitValues) :
    (∀ s e, parseTimeToSeconds v.startTime = some s →
      parseTimeToSeconds v.endTime = some e → e ≤ s →
      handleSubmit url v = .rejected) ∧
    (∀ s e, parseTimeToSeconds v.startTime = some s →
      parseTimeToSeconds v.endTime = some e → s < e →
      ∃ req, handleSubmit url v = .started req) ∧
    (parseTimeToSeconds v.startTime = none →
      ∃ req, handleSubmit url v = .started req) ∧
    (parseTimeToSeconds v.endTime = none →
      ∃ req, handleSubmit url v = .started req) := by
  refine ⟨?_, ?_, ?_, ?_⟩
  · intro s e hs he hle
    unfold handleSubmit
    rw [hs, he]
    dsimp only
    rw [if_pos (ge_iff_le.mpr hle)]
  · intro s e hs he hlt
    unfold handleSubmit
    rw [hs, he]
    dsimp only
    rw [if_neg (by exact fun hge => absurd hlt (not_lt.mpr hge))]
    exact ⟨_, rfl⟩
  · intro hs
    unfold handleSubmit
    rw [hs]
    exact ⟨_, rfl⟩
  · intro he
    unfold handleSubmit
    rw [he]
    cases parseTimeToSeconds v.startTime <;> exact ⟨_, rfl⟩

/-- Witness for C2: start 00:10 with end 00:05 is rejected, start 00:05
with end 00:10 is not, instantiating the theorem at those inputs. -/
theorem handleSubmit_validation_witness :
    handleSubmit (("U").toList)
        { startTime := ("00:10").toList, endTime := ("00:05").toList, format := .video } =
      .rejected ∧
    handleSubmit (("U").toList)
        { startTime := ("00:05").toList, endTime := ("00:10").toList, format := .video } ≠
      .rejected := by
  constructor
  · exact (handleSubmit_validation (("U").toList)
      { startTime := ("00:10").toList, endTime := ("00:05").toList, format := .video }).1
      10 5 (by decide) (by decide) (by norm_num)
  · obtain ⟨req, hreq⟩ :=
      (handleSubmit_validation (("U").toList)
        { startTime := ("00:05").toList, endTime := ("00:10").toList, format := .video }).2.1
        5 10 (by decide) (by decide) (by norm_num)
    rw [hreq]
    simp

/-- C5: when the package manager is absent and its bootstrap install
fails, `installAll` returns immediately with the brew step in the error
state carrying the thrown message, the downloader and transcoder steps
still idle, only the package-manager install attempted, and no refreshed
status published. -/
theorem installAll_brew_failure_aborts (fs : List Char → Bool) (e : List Char)
    (r2 r3 : Except (List Char) (List Char))
    (hb : (checkDeps fs).brew = false) :
    (installAll fs (.error e) r2 r3).steps.brew = { state := .error, log := e } ∧
    (installAll fs (.error e) r2 r3).steps.ytdlp = IDLE ∧
    (installAll fs (.error e) r2 r3).steps.ffmpeg = IDLE ∧
    (installAll fs (.error e) r2 r3).attempted = [("homebrew").toList] ∧
    (installAll fs (.error e) r2 r3).published = none := by
  simp [installAll, hb]

/-- Witness for C5: instantiation at the empty filesystem with a
concrete failure message. -/
theorem installAll_brew_failure_aborts_witness :
    (installAll (fun _ => false) (.error (("boom").toList))
        (.ok []) (.ok [])).steps.ytdlp = IDLE ∧
    (installAll (fun _ => false) (.error (("boom").toList))
        (.ok []) (.ok [])).attempted = [("homebrew").toList] := by
  have h := installAll_brew_failure_aborts (fun _ => false) (("boom").toList)
    (.ok []) (.ok []) (by decide)
  exact ⟨h.2.1, h.2.2.2.1⟩

/-- C9: when the fresh dependency check reports all three tools present,
`installAll` marks all three steps skipped, attempts no install, and
publishes a freshly re-checked status whose three presence flags are all
true. -/
theorem installAll_all_present_skips (fs : List Char → Bool)
    (r1 r2 r3 : Except (List Char) (List Char))
    (hb : (checkDeps fs).brew = true) (hy : (checkDeps fs).ytdlp = true)
    (hf : (checkDeps fs).ffmpeg = true) :
    (installAll fs r1 r2 r3).steps =
      { brew := { state := .skipped, log := [] }
        ytdlp := { state := .skipped, log := [] }
        ffmpeg := { state := .skipped, log := [] } } ∧
    (installAll fs r1 r2 r3).attempted = [] ∧
    (installAll fs r1 r2 r3).published = some (checkDeps fs) ∧
    (∀ d, (installAll fs r1 r2 r3).published = some d →
      d.brew = true ∧ d.ytdlp = true ∧ d.ffmpeg = true) := by
  refine ⟨by simp [installAll, hb, hy, hf], by simp [installAll, hb, hy, hf],
    by simp [installAll, hb, hy, hf], ?_⟩
  intro d hd
  simp [installAll, hb, hy, hf] at hd
  rw [← hd]
  exact ⟨hb, hy, hf⟩

/-- Witness for C9: instantiation at the full filesystem. -/
theorem installAll_all_present_skips_witness :
    (installAll (fun _ => true) (.ok []) (.ok []) (.ok [])).attempted = [] ∧
    (installAll (fun _ => true) (.ok []) (.ok []) (.ok [])).published =
      some (checkDeps (fun _ => true)) := by
  have h := installAll_all_present_skips (fun _ => true) (.ok []) (.ok []) (.ok [])
    (by decide) (by decide) (by decide)
  exact ⟨h.2.1, h.2.2.1⟩

/-- C7: `getBinPath` probes the three canonical directories in the fixed
order /opt/homebrew/bin, /usr/local/bin, /usr/bin, returning the joined
path in the first directory containing the name, and `none` when none of
the three contains it. -/
theorem getBinPath_fixed_order (fs : List Char → Bool) (name : List Char) :
    (fs (joinPath (("/opt/homebrew/bin").toList) name) = true →
      getBinPath fs name = some (joinPath (("/opt/homebrew/bin").toList) name)) ∧
    (fs (joinPath (("/opt/homebrew/bin").toList) name) = false →
      fs (joinPath (("/usr/local/bin").toList) name) = true →
      getBinPath fs name = some (joinPath (("/usr/local/bin").toList) name)) ∧
    (fs (joinPath (("/opt/homebrew/bin").toList) name) = false →
      fs (joinPath (("/usr/local/bin").toList) name) = false →
      fs (joinPath (("/usr/bin").toList) name) = true →
      getBinPath fs name = some (joinPath (("/usr/bin").toList) name)) ∧
    (fs (joinPath (("/opt/homebrew/bin").toList) name) = false →
      fs (joinPath (("/usr/local/bin").toList) name) = false →
      fs (joinPath (("/usr/bin").toList) name) = false →
      getBinPath fs name = none) := by
  refine ⟨fun h1 => ?_, fun h1 h2 => ?_, fun h1 h2 h3 => ?_, fun h1 h2 h3 => ?_⟩
  · simp only [getBinPath, BREW_PATHS, getBinPathAux]
    rw [h1]
    simp
  · simp only [getBinPath, BREW_PATHS, getBinPathAux]
    rw [h1, h2]
    simp
  · simp only [getBinPath, BREW_PATHS, getBinPathAux]
    rw [h1, h2, h3]
    simp
  · simp only [getBinPath, BREW_PATHS, getBinPathAux]
    rw [h1, h2, h3]
    simp

/-- Witness for C7: a file present only in the second-priority directory
is found there. -/
theorem getBinPath_fixed_order_witness :
    getBinPath (fun p => p = ("/usr/local/bin/yt-dlp").toList) (("yt-dlp").toList) =
      some (joinPath (("/usr/local/bin").toList) (("yt-dlp").toList)) :=
  (getBinPath_fixed_order (fun p => p = ("/usr/local/bin/yt-dlp").toList)
    (("yt-dlp").toList)).2.1 (by decide) (by decide)

/-- Witness for C10: the round trip at a concrete duration. -/
theorem parseTimeToSeconds_formatDuration_roundtrip_witness :
    parseTimeToSeconds (formatDuration ((3723 : ℕ) : ℚ)) = some ((3723 : ℕ) : ℚ) :=
  parseTimeToSeconds_formatDuration_roundtrip 3723

/-- Folding the last-file update over lines without any path match leaves
the accumulator unchanged. -/
theorem lastFile_foldl_no_match (lines : List (List Char)) (acc : List Char)
    (h : ∀ l ∈ lines, lineFileCapture l = none) :
    lines.foldl
        (fun acc l =>
          match lineFileCapture l with
          | some c => jsTrim c
          | none => acc)
        acc = acc := by
  induction lines generalizing acc with
  | nil => rfl
  | cons a as ih =>
    rw [List.foldl_cons]
    have ha : lineFileCapture a = none := h a (by simp)
    rw [ha]
    exact ih acc (fun l hl => h l (by simp [hl]))

/-- The last-file fold over lines ending in a matching line followed only
by non-matching lines yields that line's trimmed capture. -/
theorem lastFile_last_match (pre post : List (List Char)) (l c : List Char)
    (hcap : lineFileCapture l = some c)
    (hpost : ∀ x ∈ post, lineFileCapture x = none) :
    downloadLastFile (pre ++ l :: post) = jsTrim c := by
  unfold downloadLastFile
  rw [List.foldl_append, List.foldl_cons, hcap]
  exact lastFile_foldl_no_match post (jsTrim c) hpost

/-- C3: the path returned by downloadVideo is the trimmed capture of the
last observed line matching the destination or merger pattern — in
particular a merger line observed after a destination line wins — and
when no line ever matches either pattern the configured output directory
is returned instead. -/
theorem downloadVideo_path_recovery :
    (∀ outDir lines, (∀ l ∈ lines, lineFileCapture l = none) →
      downloadResultPath outDir lines = outDir) ∧
    (∀ outDir pre post l c, lineFileCapture l = some c → jsTrim c ≠ [] →
      (∀ x ∈ post, lineFileCapture x = none) →
      downloadResultPath outDir (pre ++ l :: post) = jsTrim c) ∧
    (∀ outDir pre mid post d m c p, destMatchCapture d = some c →
      destMatchCapture m = none → mergeMatchCapture m = some p → jsTrim p ≠ [] →
      (∀ x ∈ post, lineFileCapture x = none) →
      downloadResultPath outDir (pre ++ d :: (mid ++ m :: post)) = jsTrim p) := by
  refine ⟨?_, ?_, ?_⟩
  · intro outDir lines h
    unfold downloadResultPath
    rw [show downloadLastFile lines = [] from lastFile_foldl_no_match lines [] h]
    simp
  · intro outDir pre post l c hcap htrim hpost
    unfold downloadResultPath
    rw [lastFile_last_match pre post l c hcap hpost]
    simp [List.isEmpty_iff, htrim]
  · intro outDir pre mid post d m c p hd hmn hm htrim hpost
    have hcap : lineFileCapture m = some p := by
      unfold lineFileCapture
      rw [hmn, hm]
    have h2 := lastFile_last_match (pre ++ d :: mid) post m p hcap hpost
    unfold downloadResultPath
    rw [show pre ++ d :: (mid ++ m :: post) = (pre ++ d :: mid) ++ m :: post by
      simp [List.append_assoc]]
    rw [h2]
    simp [List.isEmpty_iff, htrim]

/-- Witness for C3: a destination line followed by a merger line returns
the merger line's path. -/
theorem downloadVideo_path_recovery_witness :
    downloadResultPath (("OUT").toList)
        [("[download] Destination: /tmp/a.mp4").toList,
         ("[Merger] Merging formats into \"/tmp/b.mp4\"").toList] =
      ("/tmp/b.mp4").toList := by
  have h := downloadVideo_path_recovery.2.2 (("OUT").toList) [] [] []
    (("[download] Destination: /tmp/a.mp4").toList)
    (("[Merger] Merging formats into \"/tmp/b.mp4\"").toList)
    (("/tmp/a.mp4").toList) (("/tmp/b.mp4").toList)
    (by decide) (by decide) (by decide) (by decide) (by simp)
  have ht : jsTrim (("/tmp/b.mp4").toList) = ("/tmp/b.mp4").toList := by decide
  rw [ht] at h
  simpa using h

/-- Encoding of the optional fractional part of the percentage pattern:
absent, or a dot followed by the fractional digits. -/
def pctFracEncode : Option (List Char) → List Char
  | none => []
  | some d2 => '.' :: d2

/-- A line contains the percentage pattern of `downloadVideo` when some
substring consists of a nonempty digit run, an optional dot-led digit
run, and a percent sign — the shape matched by the regular expression
`(\d+\.?\d*)%`. -/
def hasPctPattern (l : List Char) : Prop :=
  ∃ pre d1 frac rest,
    l = pre ++ (d1 ++ (pctFracEncode frac ++ '%' :: rest)) ∧ d1 ≠ [] ∧
      (∀ c ∈ d1, c.isDigit = true) ∧
      (∀ d2, frac = some d2 → ∀ c ∈ d2, c.isDigit = true)

/-- A percentage-shaped head makes the anchored matcher succeed. -/
theorem pctAttempt_of_shape (d1 : List Char) (frac : Option (List Char))
    (rest : List Char) (hd1 : d1 ≠ []) (hdig : ∀ c ∈ d1, c.isDigit = true)
    (hfrac : ∀ d2, frac = some d2 → ∀ c ∈ d2, c.isDigit = true) :
    (pctAttempt (d1 ++ (pctFracEncode frac ++ '%' :: rest))).isSome = true := by
  cases frac with
  | none =>
    have hsp : (d1 ++ '%' :: rest).span Char.isDigit = (d1, '%' :: rest) :=
      span_append_not _ d1 '%' rest hdig (by decide)
    unfold pctAttempt
    simp only [pctFracEncode, List.nil_append, hsp]
    rw [if_neg hd1]
    simp
  | some d2 =>
    have hd2 : ∀ c ∈ d2, c.isDigit = true := hfrac d2 rfl
    have hsp : (d1 ++ '.' :: (d2 ++ '%' :: rest)).span Char.isDigit =
        (d1, '.' :: (d2 ++ '%' :: rest)) :=
      span_append_not _ d1 '.' (d2 ++ '%' :: rest) hdig (by decide)
    have hsp2 : (d2 ++ '%' :: rest).span Char.isDigit = (d2, '%' :: rest) :=
      span_append_not _ d2 '%' rest hd2 (by decide)
    rw [List.span_eq_take_drop, Prod.mk.injEq] at hsp2
    unfold pctAttempt
    simp only [pctFracEncode, List.cons_append, hsp]
    rw [if_neg hd1]
    simp [List.span_eq_take_drop, hsp2.1, hsp2.2]

/-- A successful anchored match exhibits the percentage shape at the
head of the line. -/
theorem shape_of_pctAttempt (l : List Char)
    (h : (pctAttempt l).isSome = true) :
    ∃ d1 frac rest,
      l = d1 ++ (pctFracEncode frac ++ '%' :: rest) ∧ d1 ≠ [] ∧
        (∀ c ∈ d1, c.isDigit = true) ∧
        (∀ d2, frac = some d2 → ∀ c ∈ d2, c.isDigit = true) := by
  unfold pctAttempt at h
  rw [List.span_eq_take_drop] at h
  dsimp only at h
  have hl : l.takeWhile Char.isDigit ++ l.dropWhile Char.isDigit = l :=
    List.takeWhile_append_dropWhile Char.isDigit l
  by_cases h1 : l.takeWhile Char.isDigit = []
  · rw [if_pos h1] at h
    simp at h
  · rw [if_neg h1] at h
    cases hdr : l.dropWhile Char.isDigit with
    | nil =>
      rw [hdr] at h
      simp at h
    | cons c r2 =>
      rw [hdr] at h hl
      dsimp only at h
      by_cases hc : c = '%'
      · subst hc
        exact ⟨l.takeWhile Char.isDigit, none, r2, by
          simpa [pctFracEncode] using hl.symm, h1,
          fun x hx => List.mem_takeWhile_imp hx, by simp⟩
      · rw [if_neg hc] at h
        by_cases hd : c = '.'
        · subst hd
          rw [if_pos rfl, List.span_eq_take_drop] at h
          dsimp only at h
          cases hqr : r2.dropWhile Char.isDigit with
          | nil =>
            rw [hqr] at h
            simp at h
          | cons c2 r3 =>
            rw [hqr] at h
            by_cases hc2 : c2 = '%'
            · subst hc2
              have hr2 : r2.takeWhile Char.isDigit ++ '%' :: r3 = r2 := by
                have h5 := List.takeWhile_append_dropWhile Char.isDigit r2
                rw [hqr] at h5
                exact h5
              refine ⟨l.takeWhile Char.isDigit, some (r2.takeWhile Char.isDigit), r3,
                ?_, h1, fun x hx => List.mem_takeWhile_imp hx, ?_⟩
              · rw [pctFracEncode]
                have hcomb : l.takeWhile Char.isDigit ++
                    (('.' :: r2.takeWhile Char.isDigit) ++ '%' :: r3) =
                    l.takeWhile Char.isDigit ++ '.' :: r2 := by
                  simp [List.cons_append, hr2]
                rw [hcomb]
                exact hl.symm
              · rintro d2 rfl2
                injection rfl2 with hh
                subst hh
                exact fun x hx => List.mem_takeWhile_imp hx
            · dsimp only at h
              rw [if_neg hc2] at h
              simp at h
        · rw [if_neg hd] at h
          simp at h

/-- The scanning matcher succeeds exactly on lines containing the
percentage pattern. -/
theorem firstPct_isSome_iff (l : List Char) :
    (firstPct l).isSome = true ↔ hasPctPattern l := by
  induction l with
  | nil =>
    constructor
    · intro h
      simp [firstPct] at h
    · rintro ⟨pre, d1, frac, rest, heq, hne, _, _⟩
      have hlen := congrArg List.length heq
      simp [List.length_append] at hlen
      exact absurd hlen (by omega)
  | cons a as ih =>
    cases hatt : pctAttempt (a :: as) with
    | some q =>
      have hs : (firstPct (a :: as)).isSome = true := by
        rw [firstPct, hatt]
        rfl
      refine iff_of_true hs ?_
      obtain ⟨d1, frac, rest, heq, hne, hdig, hfr⟩ :=
        shape_of_pctAttempt (a :: as) (by rw [hatt]; rfl)
      exact ⟨[], d1, frac, rest, by simpa using heq, hne, hdig, hfr⟩
    | none =>
      have hstep : firstPct (a :: as) = firstPct as := by
        rw [firstPct, hatt]
      rw [hstep, ih]
      constructor
      · rintro ⟨pre, d1, frac, rest, heq, hne, hdig, hfr⟩
        exact ⟨a :: pre, d1, frac, rest, by simp [heq], hne, hdig, hfr⟩
      · rintro ⟨pre, d1, frac, rest, heq, hne, hdig, hfr⟩
        cases pre with
        | nil =>
          have : (pctAttempt (a :: as)).isSome = true := by
            rw [List.nil_append] at heq
            rw [heq]
            exact pctAttempt_of_shape d1 frac rest hne hdig hfr
          rw [hatt] at this
          simp at this
        | cons p ps =>
          rw [List.cons_append] at heq
          injection heq with h1 h2
          exact ⟨ps, d1, frac, rest, h2, hne, hdig, hfr⟩

/-- C4: a streamed line triggers a progress call exactly when it
contains the percentage pattern, and the forwarded value is the first
match's parsed value rounded with `Math.round` — in particular a line
containing 42.5% yields 43. -/
theorem downloadVideo_progress_spec :
    progressOfLine (("[download]  42.5% of ~10.00MiB").toList) = some 43 ∧
    (∀ l, (progressOfLine l).isSome = true ↔ hasPctPattern l) ∧
    (∀ l q, firstPct l = some q → progressOfLine l = some (jsRound q)) := by
  refine ⟨by decide, ?_, ?_⟩
  · intro l
    rw [show (progressOfLine l).isSome = (firstPct l).isSome by
      simp [progressOfLine]]
    exact firstPct_isSome_iff l
  · intro l q h
    simp [progressOfLine, h]

/-- Witness for C4: the rounding clause of the theorem applied at the
concrete 42.5 percent line. -/
theorem downloadVideo_progress_spec_witness :
    progressOfLine (("frame 42.5% done").toList) = some (jsRound (85 / 2)) :=
  downloadVideo_progress_spec.2.2 (("frame 42.5% done").toList) (85 / 2) (by decide)

/-- C6 (amended): every chunk is split on newlines with empty lines
discarded in all three invocation sites, and the installer callbacks in
`brewInstall` and `installHomebrew` receive each line trimmed and cut to
at most 100 characters; the download executor, however, forwards the
untruncated observed line with each progress value. -/
theorem chunk_line_truncation_amended (chunk : List Char) :
    (∀ l ∈ brewInstallLines chunk, l.length ≤ 100) ∧
    (∀ l ∈ installHomebrewLines chunk, l.length ≤ 100) ∧
    (∀ p l, (p, l) ∈ downloadChunkEvents chunk →
      l ∈ downloadChunkObservedLines chunk) := by
  refine ⟨?_, ?_, ?_⟩
  · intro l hl
    rw [brewInstallLines, procChunkLines] at hl
    obtain ⟨x, _, hx⟩ := List.mem_map.mp hl
    rw [← hx]
    simp [List.length_take]
  · intro l hl
    rw [installHomebrewLines, procChunkLines] at hl
    obtain ⟨x, _, hx⟩ := List.mem_map.mp hl
    rw [← hx]
    simp [List.length_take]
  · intro p l hl
    rw [downloadChunkEvents] at hl
    obtain ⟨x, hx, hmap⟩ := List.mem_filterMap.mp hl
    cases hpr : progressOfLine x with
    | none => rw [hpr] at hmap; simp at hmap
    | some v =>
      rw [hpr] at hmap
      simp at hmap
      rw [← hmap.2]
      exact hx

/-- Witness for the amended C6 theorem: the truncation bound applied to
a concrete over-long installer line. -/
theorem chunk_line_truncation_amended_witness :
    ((jsTrim (List.replicate 150 'b')).take 100).length ≤ 100 :=
  (chunk_line_truncation_amended (List.replicate 150 'b')).1
    ((jsTrim (List.replicate 150 'b')).take 100)
    (by
      rw [brewInstallLines, procChunkLines]
      refine List.mem_map.mpr ⟨List.replicate 150 'b', ?_, rfl⟩
      rw [List.mem_filter]
      refine ⟨?_, by decide⟩
      rw [show jsSplit '\n' (List.replicate 150 'b') = [List.replicate 150 'b'] from
        jsSplit_of_not_mem '\n' _ (fun hm => by
          have := List.eq_of_mem_replicate hm
          exact absurd this (by decide))]
      simp)

set_option maxRecDepth 4000 in
/-- Counterexample for C6 as stated: a download output line longer than
100 characters containing a percentage is forwarded to the progress
callback at its full length, untruncated. -/
theorem downloadVideo_line_not_truncated_cx :
    downloadChunkEvents (List.replicate 120 'a' ++ ("50%").toList) =
      [(50, List.replicate 120 'a' ++ ("50%").toList)] ∧
    100 < (List.replicate 120 'a' ++ ("50%").toList).length := by
  constructor
  · decide
  · decide

/-- C8: the section-extraction arguments — the download-sections flag
with the range from start (defaulting to 0) to end (defaulting to inf)
plus the keyframe-cut flag — are appended exactly when a truthy start
time differing from the 00:00 default is given or a truthy end time is
given; otherwise the argument list is just the base, format and URL
arguments. -/
theorem downloadVideo_section_args (opts : DownloadOptions)
    (ffmpegPath outDir : List Char) :
    (sectionCond opts = true ↔
      ((∃ s, opts.startTime = some s ∧ s ≠ [] ∧ s ≠ ("00:00").toList) ∨
        (∃ e, opts.endTime = some e ∧ e ≠ []))) ∧
    (sectionCond opts = true →
      downloadVideoArgs opts ffmpegPath outDir =
        baseArgs ffmpegPath outDir ++ fmtArgs opts ++
          [("--download-sections").toList,
           '*' :: jsOrD opts.startTime (("0").toList) ++
             '-' :: jsOrD opts.endTime (("inf").toList),
           ("--force-keyframes-at-cuts").toList] ++ [opts.url]) ∧
    (sectionCond opts = false →
      downloadVideoArgs opts ffmpegPath outDir =
        baseArgs ffmpegPath outDir ++ fmtArgs opts ++ [opts.url]) := by
  refine ⟨?_, ?_, ?_⟩
  · rw [sectionCond]
    cases hst : opts.startTime with
    | none =>
      cases hen : opts.endTime with
      | none => simp [jsTruthyStr]
      | some e =>
        simp [jsTruthyStr, List.isEmpty_iff]
    | some s =>
      cases hen : opts.endTime with
      | none => simp [jsTruthyStr, List.isEmpty_iff, bne_iff_ne]
      | some e => simp [jsTruthyStr, List.isEmpty_iff, bne_iff_ne]
  · intro h
    rw [downloadVideoArgs, if_pos h, sectionArgsOf]
  · intro h
    rw [downloadVideoArgs, if_neg (by rw [h]; exact Bool.false_ne_true)]
    simp

/-- Witness for C8: with start 00:05 the section arguments are present
with the inf default for the end, by the theorem at concrete options. -/
theorem downloadVideo_section_args_witness :
    downloadVideoArgs
        { url := ("U").toList, startTime := some (("00:05").toList),
          endTime := none, format := .video, quality := none }
        (("F").toList) (("D").toList) =
      baseArgs (("F").toList) (("D").toList) ++
        fmtArgs
          { url := ("U").toList, startTime := some (("00:05").toList),
            endTime := none, format := .video, quality := none } ++
        [("--download-sections").toList,
         '*' :: jsOrD (some (("00:05").toList)) (("0").toList) ++
           '-' :: jsOrD none (("inf").toList),
         ("--force-keyframes-at-cuts").toList] ++ [("U").toList] :=
  (downloadVideo_section_args
    { url := ("U").toList, startTime := some (("00:05").toList),
      endTime := none, format := .video, quality := none }
    (("F").toList) (("D").toList)).2.1 (by decide)

end
